import Mathlib

/-!
Verification of the introspection and change-analysis engine of an
automatic API documentation generator.

The development shallowly embeds, over `List Char` and plain inductive
types, the functions the claims are about:

* `RouteReflector._cleanPath` and `RouteReflector._extractPathParameters`
  (path normalization and `:name` token extraction);
* the `ASTAnalyzer` pattern-matching pass over handler syntax trees
  (member-access / call-expression analysis and the shape abstraction);
* the parameter pipeline of `DocumentationBuilder._buildRouteDocumentation`
  and `DocumentationBuilder._createMinimalDoc`;
* `SemanticVersionManager.analyzeChanges`, `_detectModifications`,
  `_hasResponseSchemaChanged` and `bumpVersion`.
-/

theorem length_dropWhile_le_self (p : Char → Bool) (l : List Char) :
    (l.dropWhile p).length ≤ l.length :=
  (List.dropWhile_suffix p).sublist.length_le

namespace PathNorm

/-- First character of a path-parameter name: `[a-zA-Z_]`. -/
def identStart (c : Char) : Bool := c.isAlpha || c = '_'

/-- Subsequent characters of a path-parameter name: `[a-zA-Z0-9_]`. -/
def identChar (c : Char) : Bool := c.isAlphanum || c = '_'

/--
`RouteReflector._extractPathParameters`: repeated `exec` of the global
regex `:([a-zA-Z_][a-zA-Z0-9_]*)`, which finds successive leftmost
matches (a `:` followed by a maximal identifier run), collects the
captured names in match order (duplicates included) and resumes the
scan after each match.
-/
def extractPathParameters : List Char → List (List Char)
  | [] => []
  | [':'] => []
  | ':' :: d :: rest2 =>
    if identStart d then
      (d :: rest2.takeWhile identChar) ::
        extractPathParameters (rest2.dropWhile identChar)
    else
      extractPathParameters (d :: rest2)
  | _ :: rest => extractPathParameters rest
termination_by l => l.length
decreasing_by
  all_goals simp only [List.length_cons]
  all_goals try omega
  have := length_dropWhile_le_self identChar rest2
  omega

/--
One global-replace pass rewriting each occurrence of the literal
pattern `pat` to `repl`, scanning left to right without rescanning the
replacement (the semantics of `String.prototype.replace` with a global
regex of literal characters).
-/
def replaceOcc (pat repl : List Char) : List Char → List Char
  | [] => []
  | c :: rest =>
    if pat ≠ [] ∧ pat.isPrefixOf (c :: rest) then
      repl ++ replaceOcc pat repl ((c :: rest).drop pat.length)
    else
      c :: replaceOcc pat repl rest
termination_by l => l.length
decreasing_by
  · rename_i h
    have hpat : 0 < pat.length := List.length_pos.mpr h.1
    simp only [List.length_drop, List.length_cons]
    omega
  · simp

/-- The `replace(/\$$/g, '')` step: drop a single trailing dollar sign. -/
def stripTrailingDollar (l : List Char) : List Char :=
  if l.getLast? = some '$' then l.dropLast else l

/-- The `replace(/\/+/g, '/')` step: each maximal run of slashes becomes one. -/
def collapseSlashes : List Char → List Char
  | [] => []
  | c :: rest =>
    if c = '/' then
      '/' :: collapseSlashes (rest.dropWhile (· = '/'))
    else
      c :: collapseSlashes rest
termination_by l => l.length
decreasing_by
  · have := length_dropWhile_le_self (· = '/') rest
    simp only [List.length_cons]
    omega
  · simp

/-- The final step of `_cleanPath`: prepend `/` when missing. -/
def ensureLeadingSlash (l : List Char) : List Char :=
  if l.head? = some '/' then l else '/' :: l

/--
`RouteReflector._cleanPath`: empty (falsy) input maps to `/`; otherwise
remove all backslashes, remove each `?(?=/|$)` lookahead artifact,
rewrite `^/` anchors to `/`, drop one trailing `$`, collapse repeated
slashes and guarantee a leading slash.
-/
def cleanPath (l : List Char) : List Char :=
  if l = [] then ['/']
  else
    ensureLeadingSlash
      (collapseSlashes
        (stripTrailingDollar
          (replaceOcc ['^', '/'] ['/']
            (replaceOcc ['?', '(', '?', '=', '/', '|', '$', ')'] []
              (l.filter (· ≠ '\\'))))))

/--
Declarative description of the `:name` tokens of a string: at index `i`
a token is present when character `i` is `:` and character `i+1` starts
an identifier; its name is the maximal identifier run from `i+1`.
(Token name runs contain no `:`, so matches never overlap and every
such index yields a token of the regex scan.)
-/
def tokenAt (s : List Char) (i : Nat) : Option (List Char) :=
  match s.drop i with
  | ':' :: d :: rest =>
    if identStart d then some (d :: rest.takeWhile identChar) else none
  | _ => none

/-- All `:name` tokens of a string, in left-to-right occurrence order. -/
def pathTokens (s : List Char) : List (List Char) :=
  (List.range s.length).filterMap (tokenAt s)

/-- A Boolean "no two adjacent slashes" predicate. -/
def noDoubleSlash : List Char → Bool
  | a :: b :: t => !(a = '/' && b = '/') && noDoubleSlash (b :: t)
  | _ => true

theorem tokenAt_cons_succ (c : Char) (s : List Char) (i : Nat) :
    tokenAt (c :: s) (i + 1) = tokenAt s i := by
  unfold tokenAt
  rw [List.drop_succ_cons]

theorem tokenAt_zero_of_ne_colon (c : Char) (s : List Char) (h : c ≠ ':') :
    tokenAt (c :: s) 0 = none := by
  unfold tokenAt
  split
  · rename_i heq
    simp only [List.drop_zero] at heq
    cases heq
    exact absurd rfl h
  · rfl

theorem pathTokens_nil : pathTokens [] = [] := by
  simp [pathTokens]

theorem pathTokens_cons (c : Char) (s : List Char) :
    pathTokens (c :: s) = (tokenAt (c :: s) 0).toList ++ pathTokens s := by
  unfold pathTokens
  rw [List.length_cons, List.range_succ_eq_map, List.filterMap_cons]
  have hmap : (List.range s.length).filterMap (fun i => tokenAt (c :: s) (Nat.succ i)) =
      (List.range s.length).filterMap (tokenAt s) := by
    apply List.filterMap_congr
    intro i _
    exact tokenAt_cons_succ c s i
  cases h : tokenAt (c :: s) 0 <;>
    simp [List.filterMap_map, Function.comp_def, hmap]

theorem pathTokens_skip {pre : List Char} (t : List Char)
    (h : ∀ a ∈ pre, a ≠ ':') : pathTokens (pre ++ t) = pathTokens t := by
  induction pre with
  | nil => rfl
  | cons c cs ih =>
    rw [List.cons_append, pathTokens_cons,
      tokenAt_zero_of_ne_colon _ _ (h c (List.mem_cons_self c cs))]
    exact ih fun a ha => h a (List.mem_cons_of_mem c ha)

theorem identStart_ne_colon {d : Char} (h : identStart d = true) : d ≠ ':' := by
  intro he
  subst he
  simp [identStart] at h

theorem identChar_ne_colon {d : Char} (h : identChar d = true) : d ≠ ':' := by
  intro he
  subst he
  simp [identChar] at h

theorem extractPathParameters_eq_pathTokens :
    ∀ s : List Char, extractPathParameters s = pathTokens s := by
  intro s
  induction s using extractPathParameters.induct with
  | case1 => simp [extractPathParameters, pathTokens]
  | case2 =>
    rw [extractPathParameters, pathTokens_cons, pathTokens_nil]
    unfold tokenAt
    rfl
  | case3 d rest2 hd ih =>
    rw [extractPathParameters, if_pos hd, pathTokens_cons]
    have h0 : tokenAt (':' :: d :: rest2) 0 = some (d :: rest2.takeWhile identChar) := by
      unfold tokenAt
      simp [hd]
    rw [h0]
    have h1 : pathTokens (d :: rest2) = pathTokens rest2 := by
      rw [pathTokens_cons, tokenAt_zero_of_ne_colon _ _ (identStart_ne_colon hd)]
      rfl
    have h2 : pathTokens rest2 = pathTokens (rest2.dropWhile identChar) := by
      conv_lhs => rw [← List.takeWhile_append_dropWhile (p := identChar) (l := rest2)]
      exact pathTokens_skip _ fun a ha => identChar_ne_colon (List.mem_takeWhile_imp ha)
    rw [h1, h2, ih]
    rfl
  | case4 d rest2 hd ih =>
    rw [extractPathParameters, if_neg hd, pathTokens_cons]
    have h0 : tokenAt (':' :: d :: rest2) 0 = none := by
      unfold tokenAt
      simp [hd]
    rw [h0, ih]
    rfl
  | case5 c rest h1 h2 ih =>
    have hc : c ≠ ':' := by
      intro hceq
      cases rest with
      | nil => exact h1 hceq rfl
      | cons d r2 => exact h2 d r2 hceq rfl
    have hstep : extractPathParameters (c :: rest) = extractPathParameters rest := by
      rw [extractPathParameters]
      · exact h1
      · exact h2
    rw [hstep, pathTokens_cons, tokenAt_zero_of_ne_colon _ _ hc, ih]
    rfl

theorem noDoubleSlash_tail {a : Char} {l : List Char}
    (h : noDoubleSlash (a :: l) = true) : noDoubleSlash l = true := by
  cases l with
  | nil => rfl
  | cons b t =>
    rw [noDoubleSlash, Bool.and_eq_true] at h
    exact h.2

theorem collapseSlashes_head? :
    ∀ l : List Char, (collapseSlashes l).head? = l.head? := by
  intro l
  induction l using collapseSlashes.induct with
  | case1 => rw [collapseSlashes]
  | case2 rest ih =>
    rw [collapseSlashes, if_pos rfl]
    rfl
  | case3 c rest h ih =>
    rw [collapseSlashes, if_neg h]
    rfl

theorem head?_dropWhile_slash :
    ∀ l : List Char, ((l.dropWhile (· = '/')).head? = some '/') → False := by
  intro l
  induction l with
  | nil => simp
  | cons c rest ih =>
    by_cases hc : c = '/'
    · simpa [List.dropWhile_cons, hc] using ih
    · simp [List.dropWhile_cons, hc]

theorem noDoubleSlash_collapseSlashes :
    ∀ l : List Char, noDoubleSlash (collapseSlashes l) = true := by
  intro l
  induction l using collapseSlashes.induct with
  | case1 => rw [collapseSlashes]; rfl
  | case2 rest ih =>
    rw [collapseSlashes, if_pos rfl]
    cases hX : collapseSlashes (rest.dropWhile (· = '/')) with
    | nil => rfl
    | cons b t =>
      have hhead := collapseSlashes_head? (rest.dropWhile (· = '/'))
      rw [hX] at hhead
      have hb : ¬(b = '/') := by
        intro hbe
        exact head?_dropWhile_slash rest (by rw [← hhead, hbe]; rfl)
      rw [hX] at ih
      rw [noDoubleSlash]
      simp [hb, ih]
  | case3 c rest h ih =>
    rw [collapseSlashes, if_neg h]
    cases hX : collapseSlashes rest with
    | nil => rfl
    | cons b t =>
      rw [hX] at ih
      rw [noDoubleSlash]
      simp [h, ih]

theorem collapseSlashes_of_noDoubleSlash :
    ∀ l : List Char, noDoubleSlash l = true → collapseSlashes l = l := by
  intro l
  induction l using collapseSlashes.induct with
  | case1 => intro _; rw [collapseSlashes]
  | case2 rest ih =>
    intro hnds
    have hdw : rest.dropWhile (· = '/') = rest := by
      cases rest with
      | nil => rfl
      | cons b t =>
        have hb : ¬(b = '/') := by
          rw [noDoubleSlash, Bool.and_eq_true] at hnds
          have h1 := hnds.1
          simpa using h1
        simp [List.dropWhile_cons, hb]
    rw [hdw] at ih
    rw [collapseSlashes, if_pos rfl, hdw, ih (noDoubleSlash_tail hnds)]
  | case3 c rest h ih =>
    intro hnds
    rw [collapseSlashes, if_neg h, ih (noDoubleSlash_tail hnds)]

theorem mem_of_mem_collapseSlashes {a : Char} :
    ∀ l : List Char, a ∈ collapseSlashes l → a ∈ l := by
  intro l
  induction l using collapseSlashes.induct with
  | case1 => rw [collapseSlashes]; exact fun h => h
  | case2 rest ih =>
    rw [collapseSlashes, if_pos rfl]
    intro hmem
    rcases List.mem_cons.mp hmem with h1 | h2
    · rw [h1]
      exact List.mem_cons_self _ _
    · exact List.mem_cons_of_mem _ ((List.dropWhile_suffix _).sublist.subset (ih h2))
  | case3 c rest h ih =>
    rw [collapseSlashes, if_neg h]
    intro hmem
    rcases List.mem_cons.mp hmem with h1 | h2
    · rw [h1]
      exact List.mem_cons_self _ _
    · exact List.mem_cons_of_mem c (ih h2)

theorem ensureLeadingSlash_head? (l : List Char) :
    (ensureLeadingSlash l).head? = some '/' := by
  unfold ensureLeadingSlash
  split
  · assumption
  · rfl

theorem ensureLeadingSlash_eq_self {l : List Char} (h : l.head? = some '/') :
    ensureLeadingSlash l = l :=
  if_pos h

theorem noDoubleSlash_ensureLeadingSlash {l : List Char}
    (h : noDoubleSlash l = true) : noDoubleSlash (ensureLeadingSlash l) = true := by
  unfold ensureLeadingSlash
  split
  · exact h
  · rename_i hh
    cases l with
    | nil => rfl
    | cons b t =>
      have hb : ¬(b = '/') := by
        intro hbe
        exact hh (by rw [hbe]; rfl)
      rw [noDoubleSlash]
      simp [hb, h]

theorem mem_ensureLeadingSlash {a : Char} {l : List Char}
    (h : a ∈ ensureLeadingSlash l) : a = '/' ∨ a ∈ l := by
  unfold ensureLeadingSlash at h
  split at h
  · exact Or.inr h
  · rcases List.mem_cons.mp h with h1 | h2
    · exact Or.inl h1
    · exact Or.inr h2

theorem ensureLeadingSlash_ne_nil (l : List Char) : ensureLeadingSlash l ≠ [] := by
  intro he
  have := ensureLeadingSlash_head? l
  rw [he] at this
  exact Option.noConfusion this

theorem replaceOcc_eq_self {p0 : Char} (pt repl : List Char) :
    ∀ l : List Char, (∀ a ∈ l, a ≠ p0) → replaceOcc (p0 :: pt) repl l = l := by
  intro l
  induction l with
  | nil => intro _; rw [replaceOcc]
  | cons c rest ih =>
    intro h
    have hc : c ≠ p0 := h c (List.mem_cons_self _ _)
    have hbeq : (p0 == c) = false := beq_eq_false_iff_ne.mpr (Ne.symm hc)
    have hpre : (p0 :: pt).isPrefixOf (c :: rest) = false := by
      simp [List.isPrefixOf, hbeq]
    rw [replaceOcc, if_neg (by simp [hpre]),
      ih fun a ha => h a (List.mem_cons_of_mem c ha)]

theorem stripTrailingDollar_eq_self {l : List Char} (h : ∀ a ∈ l, a ≠ '$') :
    stripTrailingDollar l = l := by
  unfold stripTrailingDollar
  split
  · rename_i hl
    rcases List.mem_getLast?_eq_getLast (show '$' ∈ l.getLast? from hl) with ⟨hne, hx⟩
    exact absurd rfl (h '$' (by rw [hx]; exact List.getLast_mem hne))
  · rfl

/--
C6 (amended): `_cleanPath` always returns a path starting with a single
`/` and containing no duplicate separators, and the empty (root) path
normalizes to `/`; a single trailing separator, however, may remain.
-/
theorem cleanPath_leading_slash_no_double :
    ∀ l : List Char,
      (cleanPath l).head? = some '/' ∧
      noDoubleSlash (cleanPath l) = true ∧
      cleanPath [] = ['/'] := by
  intro l
  refine ⟨?_, ?_, rfl⟩
  · by_cases hl : l = []
    · subst hl
      rfl
    · unfold cleanPath
      rw [if_neg hl]
      exact ensureLeadingSlash_head? _
  · by_cases hl : l = []
    · subst hl
      rfl
    · unfold cleanPath
      rw [if_neg hl]
      exact noDoubleSlash_ensureLeadingSlash (noDoubleSlash_collapseSlashes _)

/--
C6 (counterexample): the claim that `_cleanPath` leaves no trailing
separator fails: `clean("/api//users///")` is `"/api/users/"`, which
ends in `/` (and is not the root path).
-/
theorem cleanPath_keeps_trailing_slash :
    cleanPath "/api//users///".toList = "/api/users/".toList ∧
    (cleanPath "/api//users///".toList).getLast? = some '/' ∧
    (cleanPath "/api//users///".toList).length = 11 := by
  have h1 : cleanPath "/api//users///".toList = "/api/users/".toList := by
    simp +decide [cleanPath, replaceOcc, stripTrailingDollar, collapseSlashes,
      ensureLeadingSlash]
  refine ⟨h1, ?_, ?_⟩ <;> rw [h1] <;> decide

/--
C7 (counterexample): `_cleanPath` is not idempotent. For the input
`"^^/"` the first pass rewrites the inner `^/` and prepends a slash,
giving `"/^/"`; the second pass then rewrites the remaining `^/`,
giving `"/"`, so `clean(clean(p)) ≠ clean(p)` at `p = "^^/"` (outputs
of lengths 3 and 1).
-/
theorem cleanPath_not_idempotent :
    cleanPath "^^/".toList = "/^/".toList ∧
    cleanPath (cleanPath "^^/".toList) = ['/'] ∧
    "/^/".toList.length = 3 := by
  have h1 : cleanPath "^^/".toList = "/^/".toList := by
    simp +decide [cleanPath, replaceOcc, stripTrailingDollar, collapseSlashes,
      ensureLeadingSlash]
  refine ⟨h1, ?_, by decide⟩
  rw [h1]
  simp +decide [cleanPath, replaceOcc, stripTrailingDollar, collapseSlashes,
    ensureLeadingSlash]

/--
C7 (amended): `_cleanPath` is idempotent on inputs free of the regex
artifact characters it rewrites (backslash, caret, dollar and question
mark); on such inputs the second pass is the identity.
-/
theorem cleanPath_idempotent_without_artifacts :
    ∀ l : List Char,
      (∀ a ∈ l, a ≠ '\\' ∧ a ≠ '^' ∧ a ≠ '$' ∧ a ≠ '?') →
      cleanPath (cleanPath l) = cleanPath l := by
  intro l h
  by_cases hl : l = []
  · subst hl
    have h0 : cleanPath [] = ['/'] := rfl
    rw [h0]
    simp +decide [cleanPath, replaceOcc, stripTrailingDollar, collapseSlashes,
      ensureLeadingSlash]
  · have hB : l.filter (· ≠ '\\') = l :=
      List.filter_eq_self.mpr fun a ha => by simpa using (h a ha).1
    have hQ : replaceOcc ['?', '(', '?', '=', '/', '|', '$', ')'] [] l = l :=
      replaceOcc_eq_self _ _ l fun a ha => (h a ha).2.2.2
    have hH : replaceOcc ['^', '/'] ['/'] l = l :=
      replaceOcc_eq_self _ _ l fun a ha => (h a ha).2.1
    have hD : stripTrailingDollar l = l :=
      stripTrailingDollar_eq_self fun a ha => (h a ha).2.2.1
    have hclean : cleanPath l = ensureLeadingSlash (collapseSlashes l) := by
      unfold cleanPath
      rw [if_neg hl, hB, hQ, hH, hD]
    have hychars : ∀ a ∈ ensureLeadingSlash (collapseSlashes l),
        a ≠ '\\' ∧ a ≠ '^' ∧ a ≠ '$' ∧ a ≠ '?' := by
      intro a ha
      rcases mem_ensureLeadingSlash ha with h1 | h2
      · subst h1
        refine ⟨by decide, by decide, by decide, by decide⟩
      · exact h a (mem_of_mem_collapseSlashes l h2)
    have hyne : ensureLeadingSlash (collapseSlashes l) ≠ [] :=
      ensureLeadingSlash_ne_nil _
    have hynds : noDoubleSlash (ensureLeadingSlash (collapseSlashes l)) = true :=
      noDoubleSlash_ensureLeadingSlash (noDoubleSlash_collapseSlashes l)
    rw [hclean]
    unfold cleanPath
    rw [if_neg hyne,
      List.filter_eq_self.mpr fun a ha => by simpa using (hychars a ha).1,
      replaceOcc_eq_self _ _ _ fun a ha => (hychars a ha).2.2.2,
      replaceOcc_eq_self _ _ _ fun a ha => (hychars a ha).2.1,
      stripTrailingDollar_eq_self fun a ha => (hychars a ha).2.2.1,
      collapseSlashes_of_noDoubleSlash _ hynds,
      ensureLeadingSlash_eq_self (ensureLeadingSlash_head? _)]

/--
C7 (witness): the amended idempotence theorem applied at the concrete
artifact-free path `"/api//users"`.
-/
theorem cleanPath_idempotent_witness :
    cleanPath (cleanPath "/api//users".toList) = cleanPath "/api//users".toList :=
  cleanPath_idempotent_without_artifacts "/api//users".toList (by decide)

/--
C2 (counterexample): the claim that `extractParameters(clean(p))` has
no duplicates when `p` repeats a parameter name fails: for
`p = "/:x/:x"` the extraction returns `["x", "x"]`, with the name `x`
occurring twice.
-/
theorem extractPathParameters_duplicates :
    extractPathParameters (cleanPath "/:x/:x".toList) = [['x'], ['x']] ∧
    decide (List.Nodup (extractPathParameters (cleanPath "/:x/:x".toList))) = false := by
  have h1 : cleanPath "/:x/:x".toList = "/:x/:x".toList := by
    simp +decide [cleanPath, replaceOcc, stripTrailingDollar, collapseSlashes,
      ensureLeadingSlash]
  rw [h1]
  refine ⟨?_, ?_⟩ <;> simp +decide [extractPathParameters]

/--
C2 (amended): for every path `p`, `extractParameters(clean(p))` returns
exactly the `:name` tokens of `clean(p)`, in left-to-right occurrence
order, with duplicates preserved when a name repeats (the source
performs no deduplication, and `clean` may itself rewrite tokens).
-/
theorem extractPathParameters_cleanPath_tokens :
    ∀ l : List Char,
      extractPathParameters (cleanPath l) = pathTokens (cleanPath l) := by
  intro l
  exact extractPathParameters_eq_pathTokens (cleanPath l)

end PathNorm

namespace Ast

/-!
Expression forms the `ASTAnalyzer` pattern-matches on. Constructors
mirror the Babel node kinds the source inspects (identifier, member
access with the property name, call, `new` expression, string/numeric/
boolean/null literals, template literal, object literal, array literal)
plus a catch-all `other` for every node kind the analyzer treats as a
complex expression.
-/
mutual
inductive Expr where
  | ident (name : String)
  | member (obj : Expr) (prop : String)
  | call (callee : Expr) (args : List Expr)
  | newExpr (calleeName : String) (args : List Expr)
  | strLit (s : String)
  | numLit (n : Int)
  | boolLit (b : Bool)
  | nullLit
  | template
  | objectLit (props : List ObjProp)
  | arrayLit (elems : List Expr)
  | other
inductive ObjProp where
  | prop (key : String) (value : Expr)
  | spreadElem (arg : Expr)
end

/--
Plain JavaScript values produced by the shape abstraction: literals,
null, keyed objects and arrays (sentinels are encoded as strings, as in
the source).
-/
inductive JsValue where
  | str (s : String)
  | num (n : Int)
  | bool (b : Bool)
  | null
  | obj (fields : List (String × JsValue))
  | arr (elems : List JsValue)

/--
Model of `ASTAnalyzer._extractLiteralValue`: string/number/boolean
literals map to themselves, template literals to `template_string`,
identifiers to `var:` plus the name, null (and a missing node) to null,
and everything else to `complex_expression`.
-/
def extractLiteralValue : Option Expr → JsValue
  | none => .null
  | some e =>
    match e with
    | .strLit s => .str s
    | .numLit n => .num n
    | .boolLit b => .bool b
    | .template => .str "template_string"
    | .ident name => .str ("var:" ++ name)
    | .nullLit => .null
    | _ => .str "complex_expression"

/--
JavaScript object-property assignment `obj[key] = v`: an existing key
is updated in place, a new key is appended.
-/
def objInsert (fs : List (String × JsValue)) (k : String) (v : JsValue) :
    List (String × JsValue) :=
  if fs.any (·.1 == k) then fs.map (fun p => if p.1 == k then (p.1, v) else p)
  else fs ++ [(k, v)]

/-!
Model of `ASTAnalyzer._extractObjectStructure`: an object literal maps
to a keyed structure whose property values go through
`_extractLiteralValue` only (`null` results become the string
`unknown`); a spread element becomes the entry `...spread` with value
`object`; an array literal maps its elements recursively; any other
node goes through `_extractLiteralValue`.
-/
mutual
def extractObjectStructure : Expr → JsValue
  | .objectLit props =>
    .obj (props.foldl (fun fs p =>
      match p with
      | .prop k v =>
        match extractLiteralValue (some v) with
        | .null => objInsert fs k (.str "unknown")
        | w => objInsert fs k w
      | .spreadElem _ => objInsert fs "...spread" (.str "object")) [])
  | .arrayLit es => .arr (extractStructList es)
  | e => extractLiteralValue (some e)
def extractStructList : List Expr → List JsValue
  | [] => []
  | e :: rest => extractObjectStructure e :: extractStructList rest
end

/-- Request-usage sets of a `FunctionAnalysis` (field names in call order). -/
structure RequestUsage where
  body : List String
  query : List String
  params : List String
  headers : List String
deriving DecidableEq

/-- Response-usage lists of a `FunctionAnalysis` (in call order). -/
structure ResponseUsage where
  statusCodes : List JsValue
  jsonCalls : List JsValue
  sendCalls : List JsValue
  structures : List JsValue

/-- A recorded thrown error: its kind and extracted message. -/
structure ErrThrown where
  kind : String
  message : JsValue

/-- The analysis record built per function by `_analyzeFunctionNode`. -/
structure FunctionAnalysis where
  requestUsage : RequestUsage
  responseUsage : ResponseUsage
  errorsThrown : List ErrThrown
  returnValues : List JsValue

/-- Conventional request identifiers accepted by the analyzer. -/
def isReqIdent (s : String) : Bool := s == "req" || s == "request"

/-- Conventional response identifiers accepted by the analyzer. -/
def isResIdent (s : String) : Bool := s == "res" || s == "response"

/-- JavaScript truthiness of an extracted value. -/
def truthy : JsValue → Bool
  | .null => false
  | .bool b => b
  | .num n => n != 0
  | .str s => s != ""
  | .obj _ => true
  | .arr _ => true

/--
Model of `ASTAnalyzer._analyzeMemberExpression`: a two-level access
`req.Y.Z` (or `request.Y.Z`) with `Y` among body/query/params/headers
and a truthy field name records `Z` into the matching set; a one-level
access `req.Y` records the `__ALL__` sentinel for body, query and
params (the source has no one-level branch for headers).
-/
def analyzeMemberExpression (e : Expr) (u : RequestUsage) : RequestUsage :=
  let u1 :=
    match e with
    | .member (.member (.ident x) y) z =>
      if isReqIdent x then
        if y == "body" && z != "" then { u with body := u.body ++ [z] }
        else if y == "query" && z != "" then { u with query := u.query ++ [z] }
        else if y == "params" && z != "" then { u with params := u.params ++ [z] }
        else if y == "headers" && z != "" then { u with headers := u.headers ++ [z] }
        else u
      else u
    | _ => u
  match e with
  | .member (.ident x) y =>
    if isReqIdent x then
      if y == "body" then { u1 with body := u1.body ++ ["__ALL__"] }
      else if y == "query" then { u1 with query := u1.query ++ ["__ALL__"] }
      else if y == "params" then { u1 with params := u1.params ++ ["__ALL__"] }
      else u1
    else u1
  | _ => u1

/--
Own enumerable properties contributed by a JavaScript object-literal
spread `...v`: an object spreads its fields, a string its indexed
characters, an array its indexed elements; primitives contribute none.
-/
def objSpreadFields : JsValue → List (String × JsValue)
  | .obj fs => fs
  | .str s => s.toList.enum.map (fun p => (toString p.1, JsValue.str (String.mk [p.2])))
  | .arr es => es.enum.map (fun p => (toString p.1, p.2))
  | _ => []

/-- The `{ status: statusCode, ...structure }` object built for a chained call. -/
def statusStructure (code : JsValue) (shape : JsValue) : JsValue :=
  .obj ((objSpreadFields shape).foldl (fun fs p => objInsert fs p.1 p.2) [("status", code)])

/--
Model of `ASTAnalyzer._analyzeCallExpression`: `res.json(arg)` records
the abstracted shape of `arg` into `jsonCalls` and `structures`;
`res.status(code)` records a truthy literal code; `res.send(arg)`
records into `sendCalls`; a chained `.status(code).json(arg)` records
the code and a structure augmented with a synthetic `status` field.
-/
def analyzeCallExpression (e : Expr) (r : ResponseUsage) : ResponseUsage :=
  match e with
  | .call (.member object method) args =>
    let r1 :=
      match object with
      | .ident o =>
        if isResIdent o && method == "json" then
          match args.head? with
          | some arg =>
            let st := extractObjectStructure arg
            { r with jsonCalls := r.jsonCalls ++ [st], structures := r.structures ++ [st] }
          | none => r
        else r
      | _ => r
    let r2 :=
      match object with
      | .ident o =>
        if isResIdent o && method == "status" then
          let statusCode := extractLiteralValue args.head?
          if truthy statusCode then { r1 with statusCodes := r1.statusCodes ++ [statusCode] }
          else r1
        else r1
      | _ => r1
    let r3 :=
      match object with
      | .ident o =>
        if isResIdent o && method == "send" then
          match args.head? with
          | some arg => { r2 with sendCalls := r2.sendCalls ++ [extractObjectStructure arg] }
          | none => r2
        else r2
      | _ => r2
    match object with
    | .call (.member _ innerMethod) innerArgs =>
      if innerMethod == "status" && method == "json" then
        let statusCode := extractLiteralValue innerArgs.head?
        let r4 :=
          if truthy statusCode then { r3 with statusCodes := r3.statusCodes ++ [statusCode] }
          else r3
        let st :=
          match args.head? with
          | some arg => extractObjectStructure arg
          | none => JsValue.null
        { r4 with structures := r4.structures ++ [statusStructure statusCode st] }
      else r3
    | _ => r3
  | _ => r

/--
Model of `ASTAnalyzer._analyzeThrowStatement`: `throw new Error(msg)`
records kind `Error` with the extracted (or `unknown`) message;
throwing a bare identifier records that identifier as the kind.
-/
def analyzeThrowStatement (arg : Expr) (a : FunctionAnalysis) : FunctionAnalysis :=
  match arg with
  | .newExpr calleeName cargs =>
    if calleeName == "Error" then
      let message := extractLiteralValue cargs.head?
      { a with errorsThrown := a.errorsThrown ++
          [⟨"Error", if truthy message then message else .str "unknown"⟩] }
    else a
  | .ident n => { a with errorsThrown := a.errorsThrown ++ [⟨n, .str "unknown"⟩] }
  | _ => a

/-- Visitor dispatch applied to one node: the member-expression and
call-expression handlers (a node has one kind, so at most one fires). -/
def analyzeNodeStep (e : Expr) (a : FunctionAnalysis) : FunctionAnalysis :=
  let a1 := { a with requestUsage := analyzeMemberExpression e a.requestUsage }
  { a1 with responseUsage := analyzeCallExpression e a1.responseUsage }

/-!
Depth-first, source-order traversal of an expression (Babel visits a
node before its children), applying the visitor handlers at every node.
-/
mutual
def walkExpr (e : Expr) (a : FunctionAnalysis) : FunctionAnalysis :=
  let a1 := analyzeNodeStep e a
  match e with
  | .member obj _ => walkExpr obj a1
  | .call callee args => walkExprList args (walkExpr callee a1)
  | .newExpr _ args => walkExprList args a1
  | .objectLit props => walkProps props a1
  | .arrayLit es => walkExprList es a1
  | _ => a1
def walkExprList (es : List Expr) (a : FunctionAnalysis) : FunctionAnalysis :=
  match es with
  | [] => a
  | e :: rest => walkExprList rest (walkExpr e a)
def walkProps (ps : List ObjProp) (a : FunctionAnalysis) : FunctionAnalysis :=
  match ps with
  | [] => a
  | .prop _ v :: rest => walkProps rest (walkExpr v a)
  | .spreadElem arg :: rest => walkProps rest (walkExpr arg a)
end

/--
Statements of a handler body, as far as the analyzer's visitors are
concerned: expression statements, variable declarations (with the
declared pattern names and optional initializer), returns and throws.
-/
inductive Stmt where
  | exprStmt (e : Expr)
  | varDecl (names : List String) (init : Option Expr)
  | ret (arg : Option Expr)
  | throwStmt (arg : Expr)

/--
Traversal of one statement: the return-statement visitor records the
abstracted shape of a returned argument, the throw-statement visitor
records thrown errors, and in every case the statement's expressions
are walked so member/call visitors fire inside them.
-/
def walkStmt (s : Stmt) (a : FunctionAnalysis) : FunctionAnalysis :=
  match s with
  | .exprStmt e => walkExpr e a
  | .varDecl _ none => a
  | .varDecl _ (some e) => walkExpr e a
  | .ret none => a
  | .ret (some e) =>
    walkExpr e { a with returnValues := a.returnValues ++ [extractObjectStructure e] }
  | .throwStmt e => walkExpr e (analyzeThrowStatement e a)

/-- The empty analysis record `_analyzeFunctionNode` starts from. -/
def emptyAnalysis : FunctionAnalysis := ⟨⟨[], [], [], []⟩, ⟨[], [], [], []⟩, [], []⟩

/--
Model of `ASTAnalyzer._analyzeFunctionNode` restricted to the usage
extraction the claims are about: traverse the function body statements
in source order, populating the analysis record. (Parameter
classification, imports and exports are not modelled; no claim
concerns them.)
-/
def analyzeFunctionNode (body : List Stmt) : FunctionAnalysis :=
  body.foldl (fun a s => walkStmt s a) emptyAnalysis

/--
The Babel syntax tree of the handler body in
`const f = (req,res) => { const {a,b} = req.body; res.json({x:1}); }`:
a variable declarator destructuring `a`, `b` from the member expression
`req.body`, then the call `res.json({x:1})`.
-/
def destructuringHandlerBody : List Stmt :=
  [ .varDecl ["a", "b"] (some (.member (.ident "req") "body")),
    .exprStmt (.call (.member (.ident "res") "json")
      [.objectLit [.prop "x" (.numLit 1)]]) ]

theorem extractStructList_eq_map :
    ∀ es : List Expr, extractStructList es = es.map extractObjectStructure := by
  intro es
  induction es with
  | nil => rfl
  | cons e rest ih => rw [extractStructList, ih, List.map_cons]

/-- The value an object-literal property with key `k` and value
expression `v` receives in the abstraction of `{k: v}`. -/
def objEntryVal (k : String) (v : Expr) : JsValue :=
  match extractObjectStructure (.objectLit [.prop k v]) with
  | .obj ((_, x) :: _) => x
  | _ => .null

/--
C3 (counterexample): for the source
`const f = (req,res) => { const {a,b} = req.body; res.json({x:1}); }`
the analyzer has no destructuring handling: the initializer `req.body`
is a one-level member access, so `requestUsage.body` is `["__ALL__"]`
and contains neither `a` nor `b`, contradicting the claim.
-/
theorem analyzeCode_no_destructured_fields :
    (analyzeFunctionNode destructuringHandlerBody).requestUsage.body = ["__ALL__"] ∧
    decide ("a" ∈ (analyzeFunctionNode destructuringHandlerBody).requestUsage.body) = false ∧
    decide ("b" ∈ (analyzeFunctionNode destructuringHandlerBody).requestUsage.body) = false :=
  ⟨rfl, rfl, rfl⟩

/--
C3 (amended): for that source, `requestUsage.body` is exactly the
whole-object sentinel `["__ALL__"]` (the destructuring reads the entire
`req.body`), and `responseUsage.structures[0]` equals `{x: 1}` as
claimed.
-/
theorem analyzeCode_destructuring_behavior :
    (analyzeFunctionNode destructuringHandlerBody).requestUsage.body = ["__ALL__"] ∧
    (analyzeFunctionNode destructuringHandlerBody).responseUsage.structures.head? =
      some (.obj [("x", .num 1)]) :=
  ⟨rfl, rfl⟩

/--
C4 (counterexample): a property value that is a nested object literal
is abstracted to the sentinel `complex_expression`, not to a nested
recursively-abstracted structure (`_extractObjectStructure` passes
property values through the non-recursive `_extractLiteralValue`); the
same happens to an array-literal property value.
-/
theorem extractObjectStructure_nested_sentinel :
    extractObjectStructure
      (.objectLit [.prop "a" (.objectLit [.prop "b" (.numLit 1)])]) =
      .obj [("a", .str "complex_expression")] ∧
    extractObjectStructure (.objectLit [.prop "a" (.arrayLit [.numLit 1])]) =
      .obj [("a", .str "complex_expression")] :=
  ⟨rfl, rfl⟩

/--
C4 (amended): in the abstraction of an object literal each property
value maps through the literal-value abstraction only: literals to
themselves, template literals to `template_string`, identifiers to
`var:name`, null to `unknown`, and nested object literals, array
literals and all other expressions to `complex_expression`; a spread
element becomes the `...spread`/`object` entry; recursion happens only
when the abstracted node itself is an array literal.
-/
theorem extractObjectStructure_value_abstraction
    (k s name : String) (n : Int) (b : Bool) (ps : List ObjProp) (es : List Expr) :
    objEntryVal k (.strLit s) = .str s ∧
    objEntryVal k (.numLit n) = .num n ∧
    objEntryVal k (.boolLit b) = .bool b ∧
    objEntryVal k .template = .str "template_string" ∧
    objEntryVal k (.ident name) = .str ("var:" ++ name) ∧
    objEntryVal k (.objectLit ps) = .str "complex_expression" ∧
    objEntryVal k (.arrayLit es) = .str "complex_expression" ∧
    objEntryVal k .other = .str "complex_expression" ∧
    objEntryVal k .nullLit = .str "unknown" ∧
    extractObjectStructure (.objectLit [.spreadElem (.ident name)]) =
      .obj [("...spread", .str "object")] ∧
    extractObjectStructure (.arrayLit es) = .arr (es.map extractObjectStructure) := by
  refine ⟨rfl, rfl, rfl, rfl, rfl, rfl, rfl, rfl, rfl, rfl, ?_⟩
  rw [show extractObjectStructure (.arrayLit es) = .arr (extractStructList es) from rfl,
    extractStructList_eq_map]

/--
C5 (counterexample): a one-level access `req.headers` (with no further
field) records nothing at all: the one-level `__ALL__` rule covers
body, query and params only, so the headers set stays empty.
-/
theorem analyzeMember_headers_one_level_noop :
    analyzeMemberExpression (.member (.ident "req") "headers") ⟨[], [], [], []⟩ =
      (⟨[], [], [], []⟩ : RequestUsage) ∧
    decide ("__ALL__" ∈
      (analyzeMemberExpression (.member (.ident "req") "headers")
        ⟨[], [], [], []⟩).headers) = false :=
  ⟨rfl, rfl⟩

/--
C5 (amended): for `X` in {req, request} and a nonempty field name `Z`,
the two-level rule records `Z` into each of the four sets (headers
included), and the one-level rule records `__ALL__` for body, query and
params only — a bare `X.headers` records nothing.
-/
theorem analyzeMember_rules (x z : String) (u : RequestUsage)
    (hx : isReqIdent x = true) (hz : z ≠ "") :
    analyzeMemberExpression (.member (.member (.ident x) "body") z) u =
      { u with body := u.body ++ [z] } ∧
    analyzeMemberExpression (.member (.member (.ident x) "query") z) u =
      { u with query := u.query ++ [z] } ∧
    analyzeMemberExpression (.member (.member (.ident x) "params") z) u =
      { u with params := u.params ++ [z] } ∧
    analyzeMemberExpression (.member (.member (.ident x) "headers") z) u =
      { u with headers := u.headers ++ [z] } ∧
    analyzeMemberExpression (.member (.ident x) "body") u =
      { u with body := u.body ++ ["__ALL__"] } ∧
    analyzeMemberExpression (.member (.ident x) "query") u =
      { u with query := u.query ++ ["__ALL__"] } ∧
    analyzeMemberExpression (.member (.ident x) "params") u =
      { u with params := u.params ++ ["__ALL__"] } ∧
    analyzeMemberExpression (.member (.ident x) "headers") u = u := by
  have hz' : (z == "") = false := beq_eq_false_iff_ne.mpr hz
  refine ⟨?_, ?_, ?_, ?_, ?_, ?_, ?_, ?_⟩ <;>
    simp [analyzeMemberExpression, hx, hz', hz]

/--
C5 (witness): the amended member-analysis theorem applied at
`req.body.token` on the empty usage record.
-/
theorem analyzeMember_rules_witness :
    analyzeMemberExpression (.member (.member (.ident "req") "body") "token")
      ⟨[], [], [], []⟩ = (⟨["token"], [], [], []⟩ : RequestUsage) :=
  (analyzeMember_rules "req" "token" ⟨[], [], [], []⟩ (by decide) (by decide)).1

end Ast

namespace Build

/--
A documentation parameter entry (`ParameterDescriptor`): the source
object `{name, in, type, required, description}`; the `in` field is
named `location` here because `in` is reserved in Lean, and the
`description` field is optional because `_createMinimalDoc` omits it.
-/
structure BParam where
  name : String
  location : String
  type : String
  required : Bool
  description : Option String
deriving DecidableEq

/--
The path-parameter entry `_buildRouteDocumentation` pushes for each
element of `route.routeParameters`.
-/
def pathParam (p : String) : BParam :=
  ⟨p, "path", "string", true, some ("Path parameter: " ++ p)⟩

/-- The body block of `_extractRequestParameters`: every non-`__ALL__`
body field becomes an optional body parameter. (The `__ALL__`-only case
sets `requestSchema`, which is not part of the parameter list.) -/
def addBodyParams (ru : Ast.RequestUsage) (ps0 : List BParam) : List BParam :=
  if ru.body.length > 0 then
    (ru.body.filter (· != "__ALL__")).foldl
      (fun ps f => ps ++ [⟨f, "body", "unknown", false, some ("Body parameter: " ++ f)⟩]) ps0
  else ps0

/-- The query block of `_extractRequestParameters`. -/
def addQueryParams (ru : Ast.RequestUsage) (ps0 : List BParam) : List BParam :=
  if ru.query.length > 0 then
    (ru.query.filter (· != "__ALL__")).foldl
      (fun ps f => ps ++ [⟨f, "query", "string", false, some ("Query parameter: " ++ f)⟩]) ps0
  else ps0

/-- The params block of `_extractRequestParameters`: a used path
parameter is added (required) only when no path parameter of that name
is already present. -/
def addPathParamsFromUsage (ru : Ast.RequestUsage) (ps0 : List BParam) : List BParam :=
  if ru.params.length > 0 then
    (ru.params.filter (· != "__ALL__")).foldl
      (fun ps f =>
        if ps.any (fun p => p.name == f && p.location == "path") then ps
        else ps ++ [⟨f, "path", "string", true, some ("Path parameter: " ++ f)⟩]) ps0
  else ps0

/-- The headers block of `_extractRequestParameters`. -/
def addHeaderParams (ru : Ast.RequestUsage) (ps0 : List BParam) : List BParam :=
  if ru.headers.length > 0 then
    (ru.headers.filter (· != "__ALL__")).foldl
      (fun ps f => ps ++ [⟨f, "header", "string", false, some ("Header: " ++ f)⟩]) ps0
  else ps0

/-- Model of `DocumentationBuilder._extractRequestParameters`: the four
blocks run in source order, each appending to `doc.parameters`. -/
def extractRequestParameters (ru : Ast.RequestUsage) (ps0 : List BParam) : List BParam :=
  addHeaderParams ru (addPathParamsFromUsage ru (addQueryParams ru (addBodyParams ru ps0)))

/--
The parameter pipeline of `DocumentationBuilder._buildRouteDocumentation`:
seed `doc.parameters` with one required path parameter per route path
parameter, then, when handler source was available and parsed to at
least one function, run `_extractRequestParameters` on the first
function's analysis. (The remaining steps of the builder touch schemas,
status codes and examples only, never `doc.parameters`.)
-/
def buildDocParameters (routeParameters : List String)
    (analysis : Option Ast.FunctionAnalysis) : List BParam :=
  let params :=
    if routeParameters.length > 0 then
      routeParameters.foldl (fun ps p => ps ++ [pathParam p]) []
    else []
  match analysis with
  | some a => extractRequestParameters a.requestUsage params
  | none => params

/--
The parameter list of `DocumentationBuilder._createMinimalDoc`: one
required path parameter per route path parameter, with no description.
-/
def createMinimalDocParameters (routeParameters : List String) : List BParam :=
  routeParameters.map (fun p => ⟨p, "path", "string", true, none⟩)

/-- The route parameters of the claim: what the reflector computes for
the route path `/users/:id/posts/:postId`. -/
def examplePathParams : List String :=
  (PathNorm.extractPathParameters
    (PathNorm.cleanPath "/users/:id/posts/:postId".toList)).map (fun cs => String.mk cs)

theorem foldl_append_growth {α : Type} (f : List BParam → α → List BParam)
    (hf : ∀ ps x, ∃ e, f ps x = ps ++ e) :
    ∀ (xs : List α) (ps : List BParam), ∃ t, xs.foldl f ps = ps ++ t := by
  intro xs
  induction xs with
  | nil => exact fun ps => ⟨[], by simp⟩
  | cons x rest ih =>
    intro ps
    rcases hf ps x with ⟨e, he⟩
    rcases ih (f ps x) with ⟨t, ht⟩
    exact ⟨e ++ t, by rw [List.foldl_cons, ht, he, List.append_assoc]⟩

theorem addBodyParams_growth (ru : Ast.RequestUsage) (ps : List BParam) :
    ∃ t, addBodyParams ru ps = ps ++ t := by
  unfold addBodyParams
  split
  · exact foldl_append_growth _ (fun ps x => ⟨_, rfl⟩) _ ps
  · exact ⟨[], by simp⟩

theorem addQueryParams_growth (ru : Ast.RequestUsage) (ps : List BParam) :
    ∃ t, addQueryParams ru ps = ps ++ t := by
  unfold addQueryParams
  split
  · exact foldl_append_growth _ (fun ps x => ⟨_, rfl⟩) _ ps
  · exact ⟨[], by simp⟩

theorem addPathParamsFromUsage_growth (ru : Ast.RequestUsage) (ps : List BParam) :
    ∃ t, addPathParamsFromUsage ru ps = ps ++ t := by
  unfold addPathParamsFromUsage
  split
  · refine foldl_append_growth _ (fun ps x => ?_) _ ps
    by_cases hc : ps.any (fun p => p.name == x && p.location == "path")
    · exact ⟨[], by simp [hc]⟩
    · exact ⟨[⟨x, "path", "string", true, some ("Path parameter: " ++ x)⟩], by simp [hc]⟩
  · exact ⟨[], by simp⟩

theorem addHeaderParams_growth (ru : Ast.RequestUsage) (ps : List BParam) :
    ∃ t, addHeaderParams ru ps = ps ++ t := by
  unfold addHeaderParams
  split
  · exact foldl_append_growth _ (fun ps x => ⟨_, rfl⟩) _ ps
  · exact ⟨[], by simp⟩

theorem extractRequestParameters_growth (ru : Ast.RequestUsage) (ps : List BParam) :
    ∃ t, extractRequestParameters ru ps = ps ++ t := by
  rcases addBodyParams_growth ru ps with ⟨t1, h1⟩
  rcases addQueryParams_growth ru (addBodyParams ru ps) with ⟨t2, h2⟩
  rcases addPathParamsFromUsage_growth ru (addQueryParams ru (addBodyParams ru ps)) with ⟨t3, h3⟩
  rcases addHeaderParams_growth ru
    (addPathParamsFromUsage ru (addQueryParams ru (addBodyParams ru ps))) with ⟨t4, h4⟩
  refine ⟨t1 ++ t2 ++ t3 ++ t4, ?_⟩
  unfold extractRequestParameters
  rw [h4, h3, h2, h1]
  simp [List.append_assoc]

/--
C8: assembling documentation for a route with path
`/users/:id/posts/:postId` (route parameters as extracted from that
path) always yields the path parameters `id` and `postId`, each with
location `path` and `required = true`, whatever the handler analysis
turned out to be — and the minimal-documentation error fallback yields
exactly those two entries as well.
-/
theorem buildDoc_path_params_always_present (analysis : Option Ast.FunctionAnalysis) :
    pathParam "id" ∈ buildDocParameters examplePathParams analysis ∧
    pathParam "postId" ∈ buildDocParameters examplePathParams analysis ∧
    (pathParam "id").location = "path" ∧ (pathParam "id").required = true ∧
    (pathParam "postId").location = "path" ∧ (pathParam "postId").required = true ∧
    createMinimalDocParameters examplePathParams =
      [⟨"id", "path", "string", true, none⟩, ⟨"postId", "path", "string", true, none⟩] := by
  have hrp : examplePathParams = ["id", "postId"] := by
    simp +decide [examplePathParams, PathNorm.cleanPath, PathNorm.replaceOcc,
      PathNorm.stripTrailingDollar, PathNorm.collapseSlashes,
      PathNorm.ensureLeadingSlash, PathNorm.extractPathParameters]
  rw [hrp]
  have hmem : pathParam "id" ∈ buildDocParameters ["id", "postId"] analysis ∧
      pathParam "postId" ∈ buildDocParameters ["id", "postId"] analysis := by
    cases analysis with
    | none =>
      constructor <;> decide
    | some a =>
      have hseed : buildDocParameters ["id", "postId"] (some a) =
          extractRequestParameters a.requestUsage [pathParam "id", pathParam "postId"] := rfl
      rw [hseed]
      rcases extractRequestParameters_growth a.requestUsage
        [pathParam "id", pathParam "postId"] with ⟨t, ht⟩
      rw [ht]
      exact ⟨List.mem_append_left t (by decide), List.mem_append_left t (by decide)⟩
  exact ⟨hmem.1, hmem.2, rfl, rfl, rfl, rfl, by decide⟩

end Build

namespace Ver

/-- A documentation parameter as the change analyzer reads it: only the
`name` and `required` fields are consulted (plus the list length). -/
structure Param where
  name : String
  required : Bool
deriving DecidableEq

/-- A response schema as the change analyzer reads it: an optional
`properties` key map (only the property names are compared). -/
structure VSchema where
  properties : Option (List String)
deriving DecidableEq

/-- A `Documentation` record restricted to the fields
`SemanticVersionManager` consults when diffing two snapshots. -/
structure Doc where
  method : String
  path : String
  parameters : List Param
  responseSchema : Option VSchema
  statusCodes : List Int
  breakingChange : Bool
  breakingChangeDescription : Option String
  middleware : List String
deriving DecidableEq

/-- The `changes` object of the analysis result, fields in source order. -/
structure ChangeSet where
  breakingChanges : List String
  newEndpoints : List String
  modifiedEndpoints : List String
  deprecatedEndpoints : List String
  internalChanges : List String
deriving DecidableEq

/-- The result of `analyzeChanges`. -/
structure Analysis where
  bumpType : String
  bumpReason : String
  changes : ChangeSet
deriving DecidableEq

/-- The result of `_detectModifications`. -/
structure ModResult where
  hasChanges : Bool
  hasBreakingChanges : Bool
  hasInternalChanges : Bool
  breakingChanges : List String
deriving DecidableEq

/-- The `(method, path)` identity key used by both snapshot maps. -/
def docKey (d : Doc) : String := d.method ++ ":" ++ d.path

/-- The human-readable endpoint label `METHOD path`. -/
def docLabel (d : Doc) : String := d.method ++ " " ++ d.path

/-- JavaScript `Map` insertion: an existing key keeps its position and
gets the new value, a fresh key is appended. -/
def mapInsert (m : List (String × Doc)) (k : String) (v : Doc) : List (String × Doc) :=
  if m.any (·.1 == k) then m.map (fun p => if p.1 == k then (k, v) else p)
  else m ++ [(k, v)]

/-- The `new Map(docs.map(doc => [key, doc]))` construction. -/
def buildMap (docs : List Doc) : List (String × Doc) :=
  docs.foldl (fun m d => mapInsert m (docKey d) d) []

/-- JavaScript `new Set(array)` as a first-occurrence-order
deduplicated list. -/
def setList {α : Type} [BEq α] (l : List α) : List α :=
  l.foldl (fun acc x => if acc.contains x then acc else acc ++ [x]) []

/--
Model of `SemanticVersionManager._hasResponseSchemaChanged`: both
schemas absent means unchanged, presence asymmetry means changed, and
otherwise any property name present in the old schema but missing from
the new one means changed.
-/
def hasResponseSchemaChanged : Option VSchema → Option VSchema → Bool
  | none, none => false
  | some _, none => true
  | none, some _ => true
  | some o, some n =>
    (o.properties.getD []).any (fun p => !((n.properties.getD []).contains p))

/--
Model of `SemanticVersionManager._detectModifications`: new required
parameters, a changed response schema, removed status codes and an
explicit flag are breaking; a parameter-count change with no breaking
change marks the endpoint modified; a differing middleware list marks
an internal change, independently of the other two outcomes.
-/
def detectModifications (oldDoc newDoc : Doc) : ModResult :=
  let oldRequired := setList ((oldDoc.parameters.filter (·.required)).map (·.name))
  let newRequired := setList ((newDoc.parameters.filter (·.required)).map (·.name))
  let newReqBreaks :=
    (newRequired.filter (fun p => !(oldRequired.contains p))).map
      (fun p => docLabel newDoc ++ ": New required parameter \x27" ++ p ++ "\x27")
  let respBreaks :=
    if hasResponseSchemaChanged oldDoc.responseSchema newDoc.responseSchema then
      [docLabel newDoc ++ ": Response schema changed"]
    else []
  let removedCodes := (setList oldDoc.statusCodes).filter
      (fun c => !((setList newDoc.statusCodes).contains c))
  let codeBreaks :=
    if removedCodes.length > 0 then
      [docLabel newDoc ++ ": Removed status codes: " ++
        String.intercalate ", " (removedCodes.map toString)]
    else []
  let flagBreaks :=
    if newDoc.breakingChange then
      [docLabel newDoc ++ ": " ++
        newDoc.breakingChangeDescription.getD "Marked as breaking change"]
    else []
  let breaking := newReqBreaks ++ respBreaks ++ codeBreaks ++ flagBreaks
  let hasBreaking := !breaking.isEmpty
  { hasChanges := (newDoc.parameters.length != oldDoc.parameters.length) && !hasBreaking,
    hasBreakingChanges := hasBreaking,
    hasInternalChanges := oldDoc.middleware != newDoc.middleware,
    breakingChanges := breaking }

/-- The keys present in `previous` but absent from `current`, with
their documents, in previous-map order. -/
def removedEntries (oldDocs newDocs : List Doc) : List (String × Doc) :=
  (buildMap oldDocs).filter (fun p => ((buildMap newDocs).lookup p.1).isNone)

/-- The labels of keys present in `current` but absent from `previous`. -/
def newEndpointLabels (oldDocs newDocs : List Doc) : List String :=
  ((buildMap newDocs).filter (fun p => ((buildMap oldDocs).lookup p.1).isNone)).map
    (fun p => docLabel p.2)

/-- The modification results for keys present in both snapshots, in
current-map order. -/
def modEntries (oldDocs newDocs : List Doc) : List (Doc × ModResult) :=
  (buildMap newDocs).filterMap (fun p =>
    ((buildMap oldDocs).lookup p.1).map (fun od => (p.2, detectModifications od p.2)))

/-- The `analysis.changes` object accumulated by `analyzeChanges`:
removed endpoints feed `deprecatedEndpoints` and `breakingChanges`; the
modification pass appends its breaking reasons and fills
`modifiedEndpoints` and `internalChanges`. -/
def changeSet (oldDocs newDocs : List Doc) : ChangeSet :=
  { breakingChanges :=
      (removedEntries oldDocs newDocs).map (fun p => "Removed endpoint: " ++ docLabel p.2) ++
      (((modEntries oldDocs newDocs).filter (fun q => q.2.hasBreakingChanges)).map
        (fun q => q.2.breakingChanges)).flatten,
    newEndpoints := newEndpointLabels oldDocs newDocs,
    modifiedEndpoints :=
      ((modEntries oldDocs newDocs).filter (fun q => q.2.hasChanges)).map (fun q => docLabel q.1),
    deprecatedEndpoints := (removedEntries oldDocs newDocs).map (fun p => docLabel p.2),
    internalChanges :=
      ((modEntries oldDocs newDocs).filter (fun q => q.2.hasInternalChanges)).map
        (fun q => docLabel q.1) }

/--
Model of `SemanticVersionManager.analyzeChanges`: the bump type is
`major` when any breaking change was recorded, else `minor` when a new
endpoint appeared, else `patch` (also as the default floor).
-/
def analyzeChanges (oldDocs newDocs : List Doc) : Analysis :=
  if (changeSet oldDocs newDocs).breakingChanges.length > 0 then
    { bumpType := "major",
      bumpReason := "Breaking changes detected: " ++
        toString (changeSet oldDocs newDocs).breakingChanges.length ++
        " breaking change(s)",
      changes := changeSet oldDocs newDocs }
  else if (changeSet oldDocs newDocs).newEndpoints.length > 0 then
    { bumpType := "minor",
      bumpReason := "New features: " ++
        toString (changeSet oldDocs newDocs).newEndpoints.length ++ " new endpoint(s)",
      changes := changeSet oldDocs newDocs }
  else if (changeSet oldDocs newDocs).modifiedEndpoints.length > 0 ||
      (changeSet oldDocs newDocs).internalChanges.length > 0 then
    { bumpType := "patch", bumpReason := "Internal changes and improvements",
      changes := changeSet oldDocs newDocs }
  else
    { bumpType := "patch", bumpReason := "", changes := changeSet oldDocs newDocs }

theorem analyzeChanges_changes (oldDocs newDocs : List Doc) :
    (analyzeChanges oldDocs newDocs).changes = changeSet oldDocs newDocs := by
  unfold analyzeChanges
  split_ifs <;> rfl

/--
C1: every `(method, path)` key present in the previous snapshot map but
absent from the current one contributes its `METHOD path` label to
`deprecatedEndpoints` and a `Removed endpoint:` entry to
`breakingChanges`, and the resulting bump type is `major`.
-/
theorem analyzeChanges_removed_endpoint (oldDocs newDocs : List Doc) (k : String) (d : Doc)
    (hmem : (k, d) ∈ buildMap oldDocs)
    (habs : (buildMap newDocs).lookup k = none) :
    docLabel d ∈ (analyzeChanges oldDocs newDocs).changes.deprecatedEndpoints ∧
    ("Removed endpoint: " ++ docLabel d) ∈
      (analyzeChanges oldDocs newDocs).changes.breakingChanges ∧
    (analyzeChanges oldDocs newDocs).bumpType = "major" := by
  have hrem : (k, d) ∈ removedEntries oldDocs newDocs :=
    List.mem_filter.mpr ⟨hmem, by simp [habs]⟩
  have hdep : docLabel d ∈ (changeSet oldDocs newDocs).deprecatedEndpoints := by
    unfold changeSet
    exact List.mem_map.mpr ⟨(k, d), hrem, rfl⟩
  have hbrk : ("Removed endpoint: " ++ docLabel d) ∈
      (changeSet oldDocs newDocs).breakingChanges := by
    unfold changeSet
    exact List.mem_append_left _ (List.mem_map.mpr ⟨(k, d), hrem, rfl⟩)
  have hlen : (changeSet oldDocs newDocs).breakingChanges.length > 0 :=
    List.length_pos.mpr (List.ne_nil_of_mem hbrk)
  refine ⟨?_, ?_, ?_⟩
  · rw [analyzeChanges_changes]
    exact hdep
  · rw [analyzeChanges_changes]
    exact hbrk
  · unfold analyzeChanges
    rw [if_pos hlen]

/-- The previous-snapshot document `{GET /a, parameters: []}` of the claim. -/
def docGetA : Doc := ⟨"GET", "/a", [], none, [], false, none, []⟩

/--
C1 (witness): the removed-endpoint theorem at
previous = `[{GET /a}]`, current = `[]`, together with the concrete
lists the claim predicts: `deprecatedEndpoints = ["GET /a"]`, one
breaking-change entry mentioning `/a`, bump type `major`.
-/
theorem analyzeChanges_removed_endpoint_witness :
    (analyzeChanges [docGetA] []).changes.deprecatedEndpoints = ["GET /a"] ∧
    (analyzeChanges [docGetA] []).changes.breakingChanges = ["Removed endpoint: GET /a"] ∧
    docLabel docGetA ∈ (analyzeChanges [docGetA] []).changes.deprecatedEndpoints ∧
    ("Removed endpoint: " ++ docLabel docGetA) ∈
      (analyzeChanges [docGetA] []).changes.breakingChanges ∧
    (analyzeChanges [docGetA] []).bumpType = "major" := by
  have h := analyzeChanges_removed_endpoint [docGetA] [] "GET:/a" docGetA
    (by decide) (by decide)
  exact ⟨by decide, by decide, h.1, h.2.1, h.2.2⟩

/-- Previous-snapshot document for the C9 counterexample: no
parameters, one middleware entry. -/
def c9Prev : Doc := ⟨"GET", "/a", [], none, [], false, none, ["m"]⟩

/-- Current-snapshot document for the C9 counterexample: one new
required parameter, middleware removed. -/
def c9Curr : Doc := ⟨"GET", "/a", [⟨"x", true⟩], none, [], false, none, []⟩

/--
C9 (counterexample): a key present in both snapshots can contribute to
two change lists in the same pass. With a new required parameter and a
changed middleware list, the sole shared key `GET /a` populates both
`breakingChanges` and `internalChanges`, contradicting the claimed
at-most-one classification.
-/
theorem analyzeChanges_breaking_and_internal_overlap :
    (analyzeChanges [c9Prev] [c9Curr]).changes.breakingChanges =
      ["GET /a: New required parameter \x27x\x27"] ∧
    (analyzeChanges [c9Prev] [c9Curr]).changes.internalChanges = ["GET /a"] ∧
    (analyzeChanges [c9Prev] [c9Curr]).changes.modifiedEndpoints = [] ∧
    (analyzeChanges [c9Prev] [c9Curr]).changes.deprecatedEndpoints = [] ∧
    (analyzeChanges [c9Prev] [c9Curr]).changes.newEndpoints = [] := by
  refine ⟨?_, ?_, ?_, ?_, ?_⟩ <;> decide

/--
C9 (amended): within one pass a common key is classified into at most
one of breaking and modified — `_detectModifications` marks an endpoint
modified only when it produced no breaking change — while the
middleware-based internal classification is tracked independently and
may co-occur with either.
-/
theorem detectModifications_modified_excludes_breaking (o n : Doc)
    (h : (detectModifications o n).hasChanges = true) :
    (detectModifications o n).hasBreakingChanges = false := by
  have hdef : (detectModifications o n).hasChanges =
      ((n.parameters.length != o.parameters.length) &&
        !(detectModifications o n).hasBreakingChanges) := rfl
  rw [hdef, Bool.and_eq_true] at h
  simpa using h.2

/-- Previous document for the C9 witness: no parameters. -/
def c9PatchPrev : Doc := ⟨"GET", "/a", [], none, [], false, none, []⟩

/-- Current document for the C9 witness: one optional parameter added
(non-breaking), middleware unchanged. -/
def c9PatchCurr : Doc := ⟨"GET", "/a", [⟨"x", false⟩], none, [], false, none, []⟩

/--
C9 (witness): the amended exclusivity theorem at a concrete
modification that is non-breaking: the endpoint counts as modified and
indeed records no breaking change.
-/
theorem detectModifications_modified_excludes_breaking_witness :
    (detectModifications c9PatchPrev c9PatchCurr).hasChanges = true ∧
    (detectModifications c9PatchPrev c9PatchCurr).hasBreakingChanges = false :=
  ⟨by decide, detectModifications_modified_excludes_breaking c9PatchPrev c9PatchCurr (by decide)⟩

/-- The `currentVersion.replace(/^v/, '')` step: strip one leading `v`. -/
def stripLeadingV (s : String) : String :=
  match s.toList with
  | 'v' :: rest => String.mk rest
  | _ => s

/-- A strict numeric semver component: digits only, no leading zeros. -/
def parseNumStrict : List Char → Option Nat
  | [] => none
  | ['0'] => some 0
  | '0' :: _ :: _ => none
  | l =>
    if l.all (·.isDigit) then
      some (l.foldl (fun acc c => acc * 10 + (c.toNat - '0'.toNat)) 0)
    else none

/--
Model of the external `semver` library's version parsing for plain
versions: an optional leading `v` followed by `MAJOR.MINOR.PATCH`,
each a non-negative integer without leading zeros (pre-release and
build suffixes are outside this model). Unparseable input yields none.
-/
def parseSemver (s : String) : Option (Nat × Nat × Nat) :=
  let cs :=
    match s.toList with
    | 'v' :: rest => rest
    | cs => cs
  match cs.splitOn '.' with
  | [a, b, c] =>
    match parseNumStrict a, parseNumStrict b, parseNumStrict c with
    | some x, some y, some z => some (x, y, z)
    | _, _, _ => none
  | _ => none

/--
Model of the external `semver.inc`: the documented standard increment
on a parseable plain version, and `null` (none) when the version or the
release type does not parse — `inc` catches its own parse errors and
returns `null` instead of throwing.
-/
def semverInc (version : String) (release : String) : Option String :=
  match parseSemver version with
  | none => none
  | some (x, y, z) =>
    if release == "major" then some (toString (x + 1) ++ ".0.0")
    else if release == "minor" then some (toString x ++ "." ++ toString (y + 1) ++ ".0")
    else if release == "patch" then
      some (toString x ++ "." ++ toString y ++ "." ++ toString (z + 1))
    else none

/-- Model of `SemanticVersionManager.bumpVersion`: strip one leading
`v`, then return `semver.inc(cleanVersion, bumpType)` unchanged. -/
def bumpVersion (currentVersion bumpType : String) : Option String :=
  semverInc (stripLeadingV currentVersion) bumpType

/--
C10: when the current version, after stripping a leading `v`, is not a
parseable `MAJOR.MINOR.PATCH` semantic version, `bumpVersion` returns
null (none) — it neither throws nor returns a version string.
-/
theorem bumpVersion_none_of_unparseable (currentVersion bumpType : String)
    (h : parseSemver (stripLeadingV currentVersion) = none) :
    bumpVersion currentVersion bumpType = none := by
  unfold bumpVersion semverInc
  rw [h]

/--
C10 (witness): the unparseable-version theorem at the concrete inputs
`"not-a-version"` and `"v1.2"`, which fail to parse after stripping the
leading `v`, for both a `major` and a `patch` bump.
-/
theorem bumpVersion_none_witness :
    bumpVersion "not-a-version" "major" = none ∧
    bumpVersion "v1.2" "patch" = none :=
  ⟨bumpVersion_none_of_unparseable "not-a-version" "major" (by decide),
   bumpVersion_none_of_unparseable "v1.2" "patch" (by decide)⟩

end Ver
